import Mathlib

/-!
Shallow embedding of the interval value-type library (src/interval.rs and
src/interval/left.rs of dpithon/set).

Endpoint values are embedded as rationals: the data model (spec §3) restricts
endpoint values to finite, non-NaN reals, and every operation of the library
only uses the dense linear order on those values.

The repository files bound.rs and right.rs are not available under src/; the
definitions taken from them carry a doc comment starting with
`Modelled from the spec` and are checked against the tests that ship inside
interval.rs and left.rs.
-/

namespace IntervalSpec

/-- Modelled from the spec: bound.rs is absent. §3 Endpoint: a boundary is
`Closed k` (point included), `Open k` (point excluded) or `Unbound`. -/
inductive Bound where
  | Closed (k : ℚ)
  | Open (k : ℚ)
  | Unbound
deriving DecidableEq, Repr

open Bound

/-- Lower-side directed endpoint: struct Left(pub Bound) of left.rs. -/
structure Left where
  bound : Bound
deriving DecidableEq, Repr

/-- Upper-side directed endpoint: struct Right(pub Bound) of right.rs
(the wrapper itself is determined by its uses in interval.rs and left.rs). -/
structure Right where
  bound : Bound
deriving DecidableEq, Repr

/-- Modelled from the spec: bound.rs is absent. Structural equality of two
Bound values (same constructor, equal payload), as used by the PartialEq
impls of left.rs via `k1 == k2` on bounds. -/
def boundEq : Bound → Bound → Bool
  | Closed k1, Closed k2 => k1 == k2
  | Open k1, Open k2 => k1 == k2
  | Unbound, Unbound => true
  | _, _ => false

/-- PartialEq for Left (left.rs): equality of the wrapped bounds. -/
def leftEqLeft (a b : Left) : Bool := boundEq a.bound b.bound

/-- PartialEq of Left against Right (left.rs): only two closed bounds at the
same value are cross-side equal. -/
def leftEqRight (l : Left) (r : Right) : Bool :=
  match l.bound, r.bound with
  | Closed k1, Closed k2 => k1 == k2
  | _, _ => false

/-- Same-side strict comparison on the Lower side: PartialOrd::lt for Left
(left.rs). At an equal value a closed lower bound is less than an open one. -/
def leftLtLeft (a b : Left) : Bool :=
  match a.bound, b.bound with
  | Closed k1, Closed k2 => decide (k1 < k2)
  | Open k1, Open k2 => decide (k1 < k2)
  | Open k1, Closed k2 => decide (k1 < k2)
  | Closed k1, Open k2 => decide (k1 ≤ k2)
  | _, Unbound => false
  | Unbound, _ => true

/-- Same-side strict comparison on the Lower side: PartialOrd::gt for Left
(left.rs). -/
def leftGtLeft (a b : Left) : Bool :=
  match a.bound, b.bound with
  | Closed k1, Closed k2 => decide (k1 > k2)
  | Open k1, Open k2 => decide (k1 > k2)
  | Open k1, Closed k2 => decide (k1 ≥ k2)
  | Closed k1, Open k2 => decide (k1 > k2)
  | Unbound, _ => false
  | _, Unbound => true

/-- Left::min (left.rs): the smaller lower bound under the Lower-side order. -/
def Left.min (a b : Left) : Left := if leftLtLeft a b then a else b

/-- Left::max (left.rs): the larger lower bound under the Lower-side order. -/
def Left.max (a b : Left) : Left := if leftGtLeft a b then a else b

/-- Left::closure (left.rs): normalize a finite lower bound to its closed
form at the same value; Unbound is unchanged. -/
def Left.closure : Left → Left
  | ⟨Closed k⟩ => ⟨Closed k⟩
  | ⟨Open k⟩ => ⟨Closed k⟩
  | l => l

/-- Cross-side comparison, PartialOrd<Right>::gt for Left (left.rs): a lower
bound is strictly greater than an upper bound (the candidate range is
inverted and empty) when the values are strictly inverted, or at an equal
value unless both bounds are closed. Any Unbound side yields false. -/
def leftGtRight (l : Left) (r : Right) : Bool :=
  match l.bound, r.bound with
  | Open k1, Open k2 => decide (k1 ≥ k2)
  | Open k1, Closed k2 => decide (k1 ≥ k2)
  | Closed k1, Open k2 => decide (k1 ≥ k2)
  | Closed k1, Closed k2 => decide (k1 > k2)
  | _, _ => false

/-- Cross-side comparison, PartialOrd<Right>::lt for Left (left.rs). -/
def leftLtRight (l : Left) (r : Right) : Bool :=
  match l.bound, r.bound with
  | Open k1, Open k2 => decide (k1 < k2)
  | Open k1, Closed k2 => decide (k1 < k2)
  | Closed k1, Open k2 => decide (k1 < k2)
  | Closed k1, Closed k2 => decide (k1 < k2)
  | Unbound, _ => true
  | _, Unbound => true

/-- Cross-side partial_cmp for Left against Right (left.rs): Greater if gt,
else Less if lt, else Equal guarded by `assert!(self == other)`; a failing
assertion is modelled as `none`. -/
def cmpLR (l : Left) (r : Right) : Option Ordering :=
  if leftGtRight l r then some Ordering.gt
  else if leftLtRight l r then some Ordering.lt
  else if leftEqRight l r then some Ordering.eq
  else none

/-- Cross-side le for Left against Right: the Rust default `le` derived from
partial_cmp (left.rs overrides only lt and gt). -/
def leLR (l : Left) (r : Right) : Bool :=
  match cmpLR l r with
  | some Ordering.lt => true
  | some Ordering.eq => true
  | _ => false

/-- Modelled from the spec: right.rs is absent. PartialEq for Right mirrors
the structural equality of Left (§4.2: equality is over value and openness). -/
def rightEqRight (a b : Right) : Bool := boundEq a.bound b.bound

/-- Modelled from the spec: right.rs is absent. Same-side gt on the Upper
side per §4.1: unequal finite values order by value; at an equal value the
closed upper bound is the greater (`Open(k) < Closed(k)`); Unbound
(PosInfinity) is greater than every other Upper value. Agrees with the
Right-side tests kept in left.rs (test_lt_1r, test_lt_2r, test_lt_3r). -/
def rightGtRight (a b : Right) : Bool :=
  match a.bound, b.bound with
  | Closed k1, Closed k2 => decide (k1 > k2)
  | Open k1, Open k2 => decide (k1 > k2)
  | Closed k1, Open k2 => decide (k1 ≥ k2)
  | Open k1, Closed k2 => decide (k1 > k2)
  | _, Unbound => false
  | Unbound, _ => true

/-- Modelled from the spec: right.rs is absent. Right::max mirrors Left::min
and Left::max of left.rs, using the Upper-side order of §4.1. -/
def Right.max (a b : Right) : Right := if rightGtRight a b then a else b

/-- Modelled from the spec: right.rs is absent. The closure operation of
§4.1 on an upper endpoint: a finite endpoint becomes closed at the same
value, Unbound is unchanged. -/
def Right.closure : Right → Right
  | ⟨Closed k⟩ => ⟨Closed k⟩
  | ⟨Open k⟩ => ⟨Closed k⟩
  | r => r

/-- Modelled from the spec: right.rs is absent. PartialOrd<Left>::lt for
Right, the `b2 < b1` test of Interval::new: there is a single cross-side
rule (§4.1), so an upper bound is below a lower bound exactly when that
lower bound is above it. -/
def rightLtLeft (r : Right) (l : Left) : Bool := leftGtRight l r

/-- The interval value: struct Interval(Left, Right) of interval.rs. -/
structure Interval where
  lo : Left
  hi : Right
deriving DecidableEq, Repr

/-- EMPTY constant of interval.rs: Interval(Left(Open(0.)), Right(Open(0.))). -/
def EMPTY : Interval := ⟨⟨Open 0⟩, ⟨Open 0⟩⟩

/-- INFINITY constant of interval.rs: Interval(Left(Unbound), Right(Unbound)). -/
def INFINITY : Interval := ⟨⟨Unbound⟩, ⟨Unbound⟩⟩

/-- PartialEq for Interval (interval.rs): componentwise structural equality. -/
def intervalEq (a b : Interval) : Bool :=
  leftEqLeft a.lo b.lo && rightEqRight a.hi b.hi

/-- Interval::new (interval.rs): wrap the raw bounds with their sides; an
inverted range collapses to EMPTY, the doubly unbounded range to INFINITY,
anything else keeps its two bounds. -/
def Interval.new (b1 b2 : Bound) : Interval :=
  let l : Left := ⟨b1⟩
  let r : Right := ⟨b2⟩
  if rightLtLeft r l then EMPTY
  else if leftEqLeft l ⟨Unbound⟩ && rightEqRight r ⟨Unbound⟩ then INFINITY
  else ⟨l, r⟩

/-- Interval::singleton (interval.rs). -/
def Interval.singleton (k : ℚ) : Interval := ⟨⟨Closed k⟩, ⟨Closed k⟩⟩

/-- Interval::is_singleton (interval.rs). -/
def Interval.isSingleton (i : Interval) : Bool :=
  match i with
  | ⟨⟨Closed k1⟩, ⟨Closed k2⟩⟩ => k1 == k2
  | _ => false

/-- Interval::is_empty (interval.rs): structural equality against EMPTY. -/
def Interval.isEmpty (i : Interval) : Bool := intervalEq i EMPTY

/-- The guard of the first match arm of union and overlap (interval.rs):
an interval of shape Interval(Left(Open(k1)), Right(Open(k2))) with k1 == k2. -/
def isEmptyLike : Interval → Bool
  | ⟨⟨Open k1⟩, ⟨Open k2⟩⟩ => k1 == k2
  | _ => false

/-- The Interval(Left(Unbound), Right(Unbound)) match arms of union, overlap
and adhere_to (interval.rs). -/
def isInfinityLike : Interval → Bool
  | ⟨⟨Unbound⟩, ⟨Unbound⟩⟩ => true
  | _ => false

/-- Modelled from the spec: the boolean closure predicate on a lower and an
upper endpoint called by Interval::adhere_to lives in the absent right.rs
and in a revision of left.rs that is not under src/. Per §4.3 and the
reference behavior of §9 (together with tests test_adhere_1 to test_adhere_4
of interval.rs): the two endpoints rejoin exactly when they carry the same
finite value and at least one of them is closed, so that the shared boundary
point belongs to one of the two intervals. -/
def closureLR (l : Left) (r : Right) : Bool :=
  match l.bound, r.bound with
  | Closed k1, Closed k2 => k1 == k2
  | Closed k1, Open k2 => k1 == k2
  | Open k1, Closed k2 => k1 == k2
  | _, _ => false

/-- Modelled from the spec: the symmetric closure predicate on an upper and
a lower endpoint (see closureLR). -/
def closureRL (r : Right) (l : Left) : Bool :=
  match r.bound, l.bound with
  | Closed k1, Closed k2 => k1 == k2
  | Closed k1, Open k2 => k1 == k2
  | Open k1, Closed k2 => k1 == k2
  | _, _ => false

/-- Interval::overlap (interval.rs): an operand matching the open-open
equal-value shape overlaps nothing; a doubly unbounded operand overlaps
anything else; otherwise the two ranges intersect iff b2 >= a1 and b1 <= a2
under the cross-side rule (the Rust le and ge derive from partial_cmp, hence
equal the negations of gt). -/
def Interval.overlap (a b : Interval) : Bool :=
  if isEmptyLike b || isEmptyLike a then false
  else if isInfinityLike a || isInfinityLike b then true
  else (!leftGtRight a.lo b.hi) && (!leftGtRight b.lo a.hi)

/-- Interval::adhere_to (interval.rs): empty or doubly unbounded operands
never adhere; otherwise the endpoints rejoin in one of the two directions. -/
def Interval.adhereTo (a b : Interval) : Bool :=
  if a.isEmpty || b.isEmpty then false
  else if isInfinityLike a || isInfinityLike b then false
  else closureLR a.lo b.hi || closureRL a.hi b.lo

/-- Interval::union (interval.rs): the match arms in source order. An
open-open equal-value operand is absorbed; a doubly unbounded operand
absorbs everything; overlapping or adhering operands merge with the
side-aware min of the lower bounds and max of the upper bounds; otherwise
the two operands are returned as a pair ordered by the cross-side test
`b1 > a2`. -/
def Interval.union (a b : Interval) : Interval × Option Interval :=
  if isEmptyLike b then (a, none)
  else if isEmptyLike a then (b, none)
  else if isInfinityLike a || isInfinityLike b then (INFINITY, none)
  else if a.overlap b || a.adhereTo b then
    (⟨Left.min a.lo b.lo, Right.max a.hi b.hi⟩, none)
  else if leftGtRight b.lo a.hi then (a, some b)
  else (b, some a)

/-! Sanity checks replicating tests of interval.rs. -/

example : Interval.new (Closed 43) (Closed 42) = EMPTY := by decide
example : Interval.new (Closed 42) (Open 42) = EMPTY := by decide
example : Interval.new (Open 42) (Closed 42) = EMPTY := by decide
example : Interval.new (Open 42) (Open 42) = EMPTY := by decide
example : Interval.new Unbound Unbound = INFINITY := by decide
example : (Interval.new (Closed 42) (Closed 42)).isSingleton = true := by decide
example : (Interval.singleton 42).isSingleton = true := by decide
example : Interval.overlap EMPTY INFINITY = false := by decide
example : Interval.overlap INFINITY INFINITY = true := by decide
example :
    Interval.overlap (Interval.new (Open 42) (Open 52))
      (Interval.new (Closed 42) (Closed 52)) = true := by decide
example :
    Interval.overlap (Interval.new Unbound (Closed 42))
      (Interval.new (Open 42) (Open 52)) = false := by decide
example :
    Interval.adhereTo (Interval.new (Open 42) Unbound)
      (Interval.new Unbound (Closed 42)) = true := by decide
example :
    Interval.adhereTo (Interval.new (Open 42) Unbound)
      (Interval.new Unbound (Open 42)) = false := by decide
example :
    Interval.adhereTo (Interval.new Unbound (Open 42))
      (Interval.new (Closed 42) Unbound) = true := by decide
example :
    Interval.adhereTo (Interval.new Unbound (Open 42))
      (Interval.new (Open 42) Unbound) = false := by decide
example : Interval.adhereTo INFINITY (Interval.new (Open 42) Unbound) = false := by
  decide
example : Interval.adhereTo EMPTY (Interval.new (Open 42) Unbound) = false := by
  decide
example : Interval.union EMPTY EMPTY = (EMPTY, none) := by decide
example :
    Interval.union (Interval.new (Open 42) (Closed 43)) EMPTY
      = (Interval.new (Open 42) (Closed 43), none) := by decide
example :
    Interval.union (Interval.new (Closed 42) (Closed 52))
      (Interval.new (Open 42) (Open 52))
      = (Interval.new (Closed 42) (Closed 52), none) := by decide
example :
    Interval.union (Interval.new (Open 53) (Open 55))
      (Interval.new (Closed 42) (Closed 52))
      = (Interval.new (Closed 42) (Closed 52),
          some (Interval.new (Open 53) (Open 55))) := by decide
example :
    Interval.union (Interval.new (Open 13) (Open 15))
      (Interval.new (Closed 42) (Closed 52))
      = (Interval.new (Open 13) (Open 15),
          some (Interval.new (Closed 42) (Closed 52))) := by decide
example :
    Interval.union (Interval.new (Open 43) Unbound)
      (Interval.new (Open 42) (Closed 43))
      = (Interval.new (Open 42) Unbound, none) := by decide
example :
    Interval.union (Interval.new (Closed 43) Unbound)
      (Interval.new (Open 42) (Open 43))
      = (Interval.new (Open 42) Unbound, none) := by decide

/-! Denotational semantics: which rational numbers a directed endpoint admits
and which points an interval value contains. EMPTY denotes the empty set and
INFINITY the whole line by computation, with no special cases. -/

/-- The set of points admitted by a lower bound. -/
def memLower (x : ℚ) (l : Left) : Prop :=
  match l.bound with
  | Closed k => k ≤ x
  | Open k => k < x
  | Unbound => True

/-- The set of points admitted by an upper bound. -/
def memUpper (x : ℚ) (r : Right) : Prop :=
  match r.bound with
  | Closed k => x ≤ k
  | Open k => x < k
  | Unbound => True

/-- Membership of a point in an interval value. -/
def mem (x : ℚ) (i : Interval) : Prop := memLower x i.lo ∧ memUpper x i.hi

/-- Well-formedness of an interval value: the canonical EMPTY, or a pair
whose upper bound is not below its lower bound under the cross-side rule.
Every value the constructors produce satisfies it. -/
def wf (i : Interval) : Prop := i = EMPTY ∨ leftGtRight i.lo i.hi = false

instance wfDecidable (i : Interval) : Decidable (wf i) :=
  inferInstanceAs (Decidable (i = EMPTY ∨ leftGtRight i.lo i.hi = false))

/-! Helper lemmas about the ordering algebra and the semantics. -/

theorem leftGtLeft_eq_swap (a b : Left) : leftGtLeft a b = leftLtLeft b a := by
  obtain ⟨ba⟩ := a
  obtain ⟨bb⟩ := b
  cases ba <;> cases bb <;> simp [leftGtLeft, leftLtLeft]

theorem leftGtLeft_asymm (a b : Left) (h : leftGtLeft a b = true) :
    leftGtLeft b a = false := by
  obtain ⟨ba⟩ := a
  obtain ⟨bb⟩ := b
  cases ba <;> cases bb <;>
    simp [leftGtLeft] at h ⊢ <;> linarith

theorem rightGtRight_asymm (a b : Right) (h : rightGtRight a b = true) :
    rightGtRight b a = false := by
  obtain ⟨ba⟩ := a
  obtain ⟨bb⟩ := b
  cases ba <;> cases bb <;>
    simp [rightGtRight] at h ⊢ <;> linarith

theorem memLower_mono (a b : Left) (x : ℚ) (h : leftGtLeft a b = false)
    (hx : memLower x b) : memLower x a := by
  obtain ⟨ba⟩ := a
  obtain ⟨bb⟩ := b
  cases ba <;> cases bb <;>
    simp [leftGtLeft, memLower] at h hx ⊢ <;> linarith

theorem memUpper_mono (a b : Right) (x : ℚ) (h : rightGtRight a b = false)
    (hx : memUpper x a) : memUpper x b := by
  obtain ⟨ba⟩ := a
  obtain ⟨bb⟩ := b
  cases ba <;> cases bb <;>
    simp [rightGtRight, memUpper] at h hx ⊢ <;> linarith

theorem cross_gt_no_point (l : Left) (r : Right) (x : ℚ)
    (h : leftGtRight l r = true) (hl : memLower x l) (hr : memUpper x r) :
    False := by
  obtain ⟨bl⟩ := l
  obtain ⟨br⟩ := r
  cases bl <;> cases br <;>
    simp [leftGtRight, memLower, memUpper] at h hl hr <;> linarith

theorem cross_not_gt_point (l : Left) (r : Right)
    (h : leftGtRight l r = false) : ∃ x : ℚ, memLower x l ∧ memUpper x r := by
  obtain ⟨bl⟩ := l
  obtain ⟨br⟩ := r
  cases bl with
  | Closed k1 =>
    cases br with
    | Closed k2 =>
      simp [leftGtRight] at h
      exact ⟨k1, le_refl k1, h⟩
    | Open k2 =>
      simp [leftGtRight] at h
      refine ⟨(k1 + k2) / 2, ?_, ?_⟩
      · show k1 ≤ (k1 + k2) / 2
        linarith
      · show (k1 + k2) / 2 < k2
        linarith
    | Unbound => exact ⟨k1, le_refl k1, trivial⟩
  | Open k1 =>
    cases br with
    | Closed k2 =>
      simp [leftGtRight] at h
      refine ⟨(k1 + k2) / 2, ?_, ?_⟩
      · show k1 < (k1 + k2) / 2
        linarith
      · show (k1 + k2) / 2 ≤ k2
        linarith
    | Open k2 =>
      simp [leftGtRight] at h
      refine ⟨(k1 + k2) / 2, ?_, ?_⟩
      · show k1 < (k1 + k2) / 2
        linarith
      · show (k1 + k2) / 2 < k2
        linarith
    | Unbound => exact ⟨k1 + 1, by show k1 < k1 + 1; linarith, trivial⟩
  | Unbound =>
    cases br with
    | Closed k2 => exact ⟨k2, trivial, le_refl k2⟩
    | Open k2 => exact ⟨k2 - 1, trivial, by show k2 - 1 < k2; linarith⟩
    | Unbound => exact ⟨0, trivial, trivial⟩

theorem emptyLike_no_point (i : Interval) (x : ℚ) (h : isEmptyLike i = true) :
    ¬ mem x i := by
  obtain ⟨⟨bl⟩, ⟨br⟩⟩ := i
  rintro ⟨h1, h2⟩
  cases bl <;> cases br <;> simp [isEmptyLike] at h
  simp [memLower] at h1
  simp [memUpper] at h2
  linarith

theorem wf_point (i : Interval) (hw : wf i) (he : isEmptyLike i = false) :
    ∃ x : ℚ, mem x i := by
  rcases hw with hw | hw
  · rw [hw] at he
    simp [isEmptyLike, EMPTY] at he
  · exact cross_not_gt_point i.lo i.hi hw

theorem not_line_missing_point (i : Interval) (h : i ≠ INFINITY) :
    ∃ x : ℚ, ¬ mem x i := by
  obtain ⟨⟨bl⟩, ⟨br⟩⟩ := i
  cases bl with
  | Closed k =>
    refine ⟨k - 1, fun hx => ?_⟩
    have h1 : k ≤ k - 1 := hx.1
    linarith
  | Open k =>
    refine ⟨k, fun hx => ?_⟩
    have h1 : k < k := hx.1
    linarith
  | Unbound =>
    cases br with
    | Closed k =>
      refine ⟨k + 1, fun hx => ?_⟩
      have h2 : k + 1 ≤ k := hx.2
      linarith
    | Open k =>
      refine ⟨k, fun hx => ?_⟩
      have h2 : k < k := hx.2
      linarith
    | Unbound => exact absurd rfl h

theorem memLower_min (a b : Left) (x : ℚ) (hx : memLower x a) :
    memLower x (Left.min a b) := by
  unfold Left.min
  by_cases hlt : leftLtLeft a b = true
  · simp [hlt]
    exact hx
  · simp [Bool.not_eq_true] at hlt
    simp [hlt]
    have hg : leftGtLeft b a = false := by
      rw [leftGtLeft_eq_swap]
      exact hlt
    exact memLower_mono b a x hg hx

theorem memUpper_max (a b : Right) (x : ℚ) (hx : memUpper x a) :
    memUpper x (Right.max a b) := by
  unfold Right.max
  by_cases hgt : rightGtRight a b = true
  · simp [hgt]
    exact hx
  · simp [Bool.not_eq_true] at hgt
    simp [hgt]
    exact memUpper_mono a b x hgt hx

theorem memLower_max (a b : Left) (x : ℚ) (hx : memLower x (Left.max a b)) :
    memLower x a ∧ memLower x b := by
  unfold Left.max at hx
  by_cases hgt : leftGtLeft a b = true
  · simp [hgt] at hx
    exact ⟨hx, memLower_mono b a x (leftGtLeft_asymm a b hgt) hx⟩
  · simp [Bool.not_eq_true] at hgt
    simp [hgt] at hx
    exact ⟨memLower_mono a b x hgt hx, hx⟩

theorem memUpper_min_choice (a b : Right) (x : ℚ)
    (hx : memUpper x (if rightGtRight a b then b else a)) :
    memUpper x a ∧ memUpper x b := by
  by_cases hgt : rightGtRight a b = true
  · simp [hgt] at hx
    exact ⟨memUpper_mono b a x (rightGtRight_asymm a b hgt) hx, hx⟩
  · simp [Bool.not_eq_true] at hgt
    simp [hgt] at hx
    exact ⟨hx, memUpper_mono a b x hgt hx⟩

theorem new_not_lt (b1 b2 : Bound) (hf : rightLtLeft ⟨b2⟩ ⟨b1⟩ = false) :
    Interval.new b1 b2 = ⟨⟨b1⟩, ⟨b2⟩⟩ := by
  unfold Interval.new
  simp only [hf, Bool.false_eq_true, if_false]
  split
  next hu =>
    simp only [Bool.and_eq_true] at hu
    obtain ⟨hu1, hu2⟩ := hu
    cases b1 <;> simp [leftEqLeft, boundEq] at hu1
    cases b2 <;> simp [rightEqRight, boundEq] at hu2
    rfl
  next => rfl

theorem new_lt (b1 b2 : Bound) (ht : rightLtLeft ⟨b2⟩ ⟨b1⟩ = true) :
    Interval.new b1 b2 = EMPTY := by
  unfold Interval.new
  simp [ht]

/-- C1: for all valid endpoint inputs, isEmpty(build(lower, upper)) holds iff
upper < lower under the cross-side ordering; build(Unbound, Unbound) is the
canonical Everything value; and in every other case build returns the pair of
exactly the given lower and upper endpoints. -/
theorem claim_c1 : ∀ b1 b2 : Bound,
    ((Interval.new b1 b2).isEmpty = true ↔ rightLtLeft ⟨b2⟩ ⟨b1⟩ = true)
    ∧ Interval.new Unbound Unbound = INFINITY
    ∧ (rightLtLeft ⟨b2⟩ ⟨b1⟩ = false → Interval.new b1 b2 = ⟨⟨b1⟩, ⟨b2⟩⟩) := by
  intro b1 b2
  refine ⟨⟨?_, ?_⟩, by decide, new_not_lt b1 b2⟩
  · intro he
    by_contra hne
    simp only [Bool.not_eq_true] at hne
    rw [new_not_lt b1 b2 hne] at he
    cases b1 <;> cases b2 <;>
      simp [Interval.isEmpty, intervalEq, leftEqLeft, rightEqRight, boundEq,
        EMPTY] at he
    obtain ⟨e1, e2⟩ := he
    subst e1
    subst e2
    simp [rightLtLeft, leftGtRight] at hne
  · intro hlt
    rw [new_lt b1 b2 hlt]
    decide

/-- Witness for C1 at the concrete input lower = Closed 1, upper = Closed 2. -/
theorem claim_c1_w :
    Interval.new (Closed 1) (Closed 2) = ⟨⟨Closed 1⟩, ⟨Closed 2⟩⟩ :=
  (claim_c1 (Closed 1) (Closed 2)).2.2 (by decide)

/-- C2: at an equal finite value, the cross-side comparison of a lower
against an upper bound yields lower ≤ upper exactly when both bounds are
closed; every other openness combination yields lower > upper. -/
theorem claim_c2 : ∀ k : ℚ,
    leLR ⟨Closed k⟩ ⟨Closed k⟩ = true
    ∧ leftGtRight ⟨Closed k⟩ ⟨Closed k⟩ = false
    ∧ leftGtRight ⟨Open k⟩ ⟨Closed k⟩ = true
    ∧ leftGtRight ⟨Closed k⟩ ⟨Open k⟩ = true
    ∧ leftGtRight ⟨Open k⟩ ⟨Open k⟩ = true
    ∧ leLR ⟨Open k⟩ ⟨Closed k⟩ = false
    ∧ leLR ⟨Closed k⟩ ⟨Open k⟩ = false
    ∧ leLR ⟨Open k⟩ ⟨Open k⟩ = false := by
  intro k
  refine ⟨?_, ?_, ?_, ?_, ?_, ?_, ?_, ?_⟩ <;>
    simp [leLR, cmpLR, leftGtRight, leftLtRight, leftEqRight]

/-- C9: singleton(k) is a singleton, and agrees, both under the structural
PartialEq of Interval and as a Lean equality, with build(Closed k, Closed k). -/
theorem claim_c9 : ∀ k : ℚ,
    (Interval.singleton k).isSingleton = true
    ∧ intervalEq (Interval.singleton k) (Interval.new (Closed k) (Closed k)) = true
    ∧ Interval.singleton k = Interval.new (Closed k) (Closed k) := by
  intro k
  have hnew : Interval.new (Closed k) (Closed k) = ⟨⟨Closed k⟩, ⟨Closed k⟩⟩ :=
    new_not_lt (Closed k) (Closed k) (by simp [rightLtLeft, leftGtRight])
  rw [hnew]
  refine ⟨by simp [Interval.singleton, Interval.isSingleton], ?_, rfl⟩
  simp [Interval.singleton, intervalEq, leftEqLeft, rightEqRight, boundEq]

/-- C10: the cross-side comparison of a lower against an upper bound is
total: partial_cmp always returns a result, and whenever neither gt nor lt
holds the two bounds are cross-side equal, so the assertion inside
partial_cmp never fails. -/
theorem claim_c10 : ∀ (l : Left) (r : Right),
    (cmpLR l r).isSome = true
    ∧ (leftGtRight l r = false → leftLtRight l r = false →
        leftEqRight l r = true) := by
  intro l r
  obtain ⟨bl⟩ := l
  obtain ⟨br⟩ := r
  have hkey : leftGtRight ⟨bl⟩ ⟨br⟩ = false → leftLtRight ⟨bl⟩ ⟨br⟩ = false →
      leftEqRight ⟨bl⟩ ⟨br⟩ = true := by
    intro h1 h2
    cases bl <;> cases br <;>
      simp [leftGtRight, leftLtRight, leftEqRight] at h1 h2 ⊢ <;> linarith
  refine ⟨?_, hkey⟩
  unfold cmpLR
  split_ifs with h1 h2 h3
  · rfl
  · rfl
  · rfl
  · simp only [Bool.not_eq_true] at h1 h2
    exact absurd (hkey h1 h2) h3

/-- Witness for C10 at the concrete pair Closed 1 versus Closed 1. -/
theorem claim_c10_w : leftEqRight ⟨Closed 1⟩ ⟨Closed 1⟩ = true :=
  (claim_c10 ⟨Closed 1⟩ ⟨Closed 1⟩).2 (by decide) (by decide)

/-- C3: when two Bounded intervals overlap or adhere, union merges them into
the single interval taking the Lower-side minimum of the two lower bounds
and the Upper-side maximum of the two upper bounds; in particular the union
of ]2,3[ and [3,5] is the single interval ]2,5]. -/
theorem claim_c3 : ∀ a b : Interval,
    isEmptyLike a = false → isEmptyLike b = false →
    isInfinityLike a = false → isInfinityLike b = false →
    (a.overlap b || a.adhereTo b) = true →
    a.union b = (⟨Left.min a.lo b.lo, Right.max a.hi b.hi⟩, none)
    ∧ (Interval.new (Open 2) (Open 3)).union (Interval.new (Closed 3) (Closed 5))
        = (Interval.new (Open 2) (Closed 5), none) := by
  intro a b ha hb hia hib hov
  constructor
  · simp [Interval.union, ha, hb, hia, hib, hov]
  · decide

/-- Witness for C3 at the concrete adhering pair ]2,3[ and [3,5]. -/
theorem claim_c3_w :
    (Interval.new (Open 2) (Open 3)).union (Interval.new (Closed 3) (Closed 5))
      = (⟨Left.min (Interval.new (Open 2) (Open 3)).lo
            (Interval.new (Closed 3) (Closed 5)).lo,
          Right.max (Interval.new (Open 2) (Open 3)).hi
            (Interval.new (Closed 3) (Closed 5)).hi⟩, none) :=
  (claim_c3 (Interval.new (Open 2) (Open 3)) (Interval.new (Closed 3) (Closed 5))
    (by decide) (by decide) (by decide) (by decide) (by decide)).1

/-- C4: when two Bounded intervals neither overlap nor adhere, union returns
the ordered pair (a, b) when b.lower > a.upper under the cross-side rule and
(b, a) otherwise; in either case the interval placed second starts strictly
after the interval placed first ends, so the pair is ordered left-to-right
regardless of the argument order. -/
theorem claim_c4 : ∀ a b : Interval,
    isEmptyLike a = false → isEmptyLike b = false →
    isInfinityLike a = false → isInfinityLike b = false →
    a.overlap b = false → a.adhereTo b = false →
    (leftGtRight b.lo a.hi = true → a.union b = (a, some b))
    ∧ (leftGtRight b.lo a.hi = false → a.union b = (b, some a))
    ∧ (∀ p j, a.union b = (p, some j) → leftGtRight j.lo p.hi = true) := by
  intro a b ha hb hia hib hov had
  have hmain : a.union b =
      if leftGtRight b.lo a.hi then (a, some b) else (b, some a) := by
    simp [Interval.union, ha, hb, hia, hib, hov, had]
  refine ⟨?_, ?_, ?_⟩
  · intro hgt
    rw [hmain, hgt]
    simp
  · intro hgt
    rw [hmain, hgt]
    simp
  · intro p j hpj
    by_cases hgt : leftGtRight b.lo a.hi = true
    · rw [hmain] at hpj
      simp [hgt] at hpj
      obtain ⟨hp, hj⟩ := hpj
      subst hp
      subst hj
      exact hgt
    · simp only [Bool.not_eq_true] at hgt
      have hform : (!leftGtRight a.lo b.hi && !leftGtRight b.lo a.hi) = false := by
        simpa [Interval.overlap, ha, hb, hia, hib] using hov
      rw [hgt] at hform
      simp at hform
      rw [hmain] at hpj
      simp [hgt] at hpj
      obtain ⟨hp, hj⟩ := hpj
      subst hp
      subst hj
      exact hform

/-- Witness for C4 at the concrete disjoint pair [1,2] and [4,5]. -/
theorem claim_c4_w :
    (Interval.new (Closed 1) (Closed 2)).union (Interval.new (Closed 4) (Closed 5))
      = (Interval.new (Closed 1) (Closed 2),
          some (Interval.new (Closed 4) (Closed 5))) :=
  (claim_c4 (Interval.new (Closed 1) (Closed 2)) (Interval.new (Closed 4) (Closed 5))
    (by decide) (by decide) (by decide) (by decide) (by decide) (by decide)).1
    (by decide)

/-- Whether a bound is closed. -/
def isClosed : Bound → Bool
  | Closed _ => true
  | _ => false

theorem closureLR_char (l : Left) (r : Right) :
    closureLR l r =
      (leftEqRight (Left.closure l) (Right.closure r)
        && (isClosed l.bound || isClosed r.bound)) := by
  obtain ⟨bl⟩ := l
  obtain ⟨br⟩ := r
  cases bl <;> cases br <;>
    simp [closureLR, Left.closure, Right.closure, leftEqRight, isClosed]

theorem closureRL_char (r : Right) (l : Left) :
    closureRL r l =
      (leftEqRight (Left.closure l) (Right.closure r)
        && (isClosed l.bound || isClosed r.bound)) := by
  obtain ⟨bl⟩ := l
  obtain ⟨br⟩ := r
  cases bl <;> cases br <;>
    simp [closureRL, Left.closure, Right.closure, leftEqRight, isClosed]
  all_goals exact eq_comm

/-- C6 counterexample: for a = ]2,3[ and b = ]3,5], both Bounded intervals,
the closure of a's upper endpoint equals the closure of b's lower endpoint
(both normalize to Closed 3), yet adhere is false in both argument orders:
the closure-equality characterization of the claim fails at this input. -/
theorem claim_c6_cex :
    leftEqRight (Left.closure (Interval.new (Open 3) (Closed 5)).lo)
        (Right.closure (Interval.new (Open 2) (Open 3)).hi) = true
    ∧ (Interval.new (Open 2) (Open 3)).isEmpty = false
    ∧ (Interval.new (Open 3) (Closed 5)).isEmpty = false
    ∧ isInfinityLike (Interval.new (Open 2) (Open 3)) = false
    ∧ isInfinityLike (Interval.new (Open 3) (Closed 5)) = false
    ∧ (Interval.new (Open 2) (Open 3)).adhereTo
        (Interval.new (Open 3) (Closed 5)) = false
    ∧ (Interval.new (Open 3) (Closed 5)).adhereTo
        (Interval.new (Open 2) (Open 3)) = false := by
  decide

/-- C6 amended: adhere(a, b) is true iff neither operand is Empty or
Everything and, in at least one of the two directions (a.lower against
b.upper, or b.lower against a.upper), the closures of the two facing
endpoints are equal AND at least one of the two endpoints is itself closed
(so the shared boundary value belongs to one of the intervals). Empty and
Everything never adhere to anything. -/
theorem claim_c6 : ∀ a b : Interval,
    a.adhereTo b =
      (!(a.isEmpty || b.isEmpty) && !(isInfinityLike a || isInfinityLike b) &&
        ((leftEqRight (Left.closure a.lo) (Right.closure b.hi)
            && (isClosed a.lo.bound || isClosed b.hi.bound))
          || (leftEqRight (Left.closure b.lo) (Right.closure a.hi)
            && (isClosed b.lo.bound || isClosed a.hi.bound)))) := by
  intro a b
  unfold Interval.adhereTo
  split_ifs with h1 h2
  · simp [h1]
  · simp only [Bool.not_eq_true] at h1
    simp [h1, h2]
  · simp only [Bool.not_eq_true] at h1 h2
    simp [h1, h2, closureLR_char, closureRL_char]

theorem isInfinityLike_eq (i : Interval) (h : isInfinityLike i = true) :
    i = INFINITY := by
  obtain ⟨⟨bl⟩, ⟨br⟩⟩ := i
  cases bl <;> cases br <;> simp [isInfinityLike] at h
  rfl

theorem mem_INFINITY (x : ℚ) : mem x INFINITY := ⟨trivial, trivial⟩

theorem wf_gt_false (a : Interval) (hw : wf a) (ha : isEmptyLike a = false) :
    leftGtRight a.lo a.hi = false := by
  rcases hw with hw | hw
  · subst hw
    simp [isEmptyLike, EMPTY] at ha
  · exact hw

theorem shared_point_choice (a b : Interval)
    (hwa : leftGtRight a.lo a.hi = false) (hwb : leftGtRight b.lo b.hi = false)
    (hab : leftGtRight a.lo b.hi = false) (hba : leftGtRight b.lo a.hi = false) :
    ∃ x : ℚ, mem x a ∧ mem x b := by
  have hgtLR : leftGtRight (Left.max a.lo b.lo)
      (if rightGtRight a.hi b.hi then b.hi else a.hi) = false := by
    by_cases hga : leftGtLeft a.lo b.lo = true <;>
      by_cases hgr : rightGtRight a.hi b.hi = true <;>
        simp [Left.max, hga, hgr] <;> assumption
  obtain ⟨x, hxl, hxr⟩ := cross_not_gt_point _ _ hgtLR
  have h1 := memLower_max a.lo b.lo x hxl
  have h2 := memUpper_min_choice a.hi b.hi x hxr
  exact ⟨x, ⟨h1.1, h2.1⟩, ⟨h1.2, h2.2⟩⟩

/-- C5: overlap(a, b) is true exactly when a and b share a point; the
canonical Empty overlaps nothing (in either position, including Everything),
Everything overlaps every non-empty operand including itself, and two
Bounded operands overlap iff b.upper ≥ a.lower and a.upper ≥ b.lower under
the cross-side rule (the derived ge and le are the negations of the strict
cross-side gt). -/
theorem claim_c5 : ∀ a b : Interval, wf a → wf b →
    ((a.overlap b = true) ↔ ∃ x : ℚ, mem x a ∧ mem x b)
    ∧ Interval.overlap EMPTY b = false
    ∧ Interval.overlap a EMPTY = false
    ∧ (isEmptyLike b = false → Interval.overlap INFINITY b = true)
    ∧ (isEmptyLike a = false → isEmptyLike b = false →
        isInfinityLike a = false → isInfinityLike b = false →
        a.overlap b = ((!leftGtRight a.lo b.hi) && (!leftGtRight b.lo a.hi))) := by
  have hEL : isEmptyLike EMPTY = true := by decide
  intro a b hwa hwb
  refine ⟨⟨?_, ?_⟩, ?_, ?_, ?_, ?_⟩
  · intro hov
    by_cases h1 : (isEmptyLike b || isEmptyLike a) = true
    · simp [Interval.overlap, h1] at hov
    · simp only [Bool.or_eq_true, not_or, Bool.not_eq_true] at h1
      obtain ⟨h1b, h1a⟩ := h1
      by_cases h2 : (isInfinityLike a || isInfinityLike b) = true
      · rcases Bool.or_eq_true _ _ |>.mp h2 with hia | hib
        · obtain ⟨x, hx⟩ := wf_point b hwb h1b
          rw [isInfinityLike_eq a hia]
          exact ⟨x, mem_INFINITY x, hx⟩
        · obtain ⟨x, hx⟩ := wf_point a hwa h1a
          rw [isInfinityLike_eq b hib]
          exact ⟨x, hx, mem_INFINITY x⟩
      · simp [Interval.overlap, h1a, h1b, h2] at hov
        obtain ⟨hab, hba⟩ := hov
        exact shared_point_choice a b (wf_gt_false a hwa h1a)
          (wf_gt_false b hwb h1b) hab hba
  · rintro ⟨x, hxa, hxb⟩
    unfold Interval.overlap
    split_ifs with h1 h2
    · rcases Bool.or_eq_true _ _ |>.mp h1 with hb | ha
      · exact absurd hxb (emptyLike_no_point b x hb)
      · exact absurd hxa (emptyLike_no_point a x ha)
    · rfl
    · simp only [Bool.and_eq_true, Bool.not_eq_true']
      constructor
      · cases hq : leftGtRight a.lo b.hi with
        | false => rfl
        | true => exact (cross_gt_no_point a.lo b.hi x hq hxa.1 hxb.2).elim
      · cases hq : leftGtRight b.lo a.hi with
        | false => rfl
        | true => exact (cross_gt_no_point b.lo a.hi x hq hxb.1 hxa.2).elim
  · simp [Interval.overlap, hEL]
  · simp [Interval.overlap, hEL]
  · intro hb
    have hinfe : isEmptyLike INFINITY = false := by decide
    have hinfi : isInfinityLike INFINITY = true := by decide
    simp [Interval.overlap, hb, hinfe, hinfi]
  · intro ha hb hia hib
    simp [Interval.overlap, ha, hb, hia, hib]

/-- Witness for C5 at the concrete overlapping pair [1,3] and [2,4]. -/
theorem claim_c5_w :
    ((Interval.new (Closed 1) (Closed 3)).overlap
        (Interval.new (Closed 2) (Closed 4)) = true)
      ↔ ∃ x : ℚ, mem x (Interval.new (Closed 1) (Closed 3))
          ∧ mem x (Interval.new (Closed 2) (Closed 4)) :=
  (claim_c5 (Interval.new (Closed 1) (Closed 3))
    (Interval.new (Closed 2) (Closed 4)) (by decide) (by decide)).1

/-- C8: every value produced by build, singleton or union is well formed
(the canonical EMPTY, or a pair whose upper bound is not below its lower
bound under the cross-side rule); singleton is a Bounded pair distinct from
EMPTY and Everything; and no well-formed value other than the canonical
EMPTY and Everything denotes the empty set or the whole line. -/
theorem claim_c8 :
    (∀ b1 b2 : Bound, wf (Interval.new b1 b2))
    ∧ (∀ k : ℚ, wf (Interval.singleton k)
        ∧ Interval.singleton k ≠ EMPTY ∧ Interval.singleton k ≠ INFINITY)
    ∧ (∀ a b : Interval, wf a → wf b →
        wf (a.union b).1 ∧ ∀ j, (a.union b).2 = some j → wf j)
    ∧ (∀ i : Interval, wf i → i ≠ EMPTY → i ≠ INFINITY →
        (∃ x : ℚ, mem x i) ∧ (∃ x : ℚ, ¬ mem x i)) := by
  refine ⟨?_, ?_, ?_, ?_⟩
  · intro b1 b2
    by_cases hlt : rightLtLeft ⟨b2⟩ ⟨b1⟩ = true
    · rw [new_lt b1 b2 hlt]
      exact Or.inl rfl
    · simp only [Bool.not_eq_true] at hlt
      rw [new_not_lt b1 b2 hlt]
      exact Or.inr hlt
  · intro k
    refine ⟨Or.inr (by simp [Interval.singleton, leftGtRight]), ?_, ?_⟩
    · simp [Interval.singleton, EMPTY]
    · simp [Interval.singleton, INFINITY]
  · intro a b hwa hwb
    by_cases hb : isEmptyLike b = true
    · simp only [Interval.union, hb, if_true]
      exact ⟨hwa, fun j h => by simp at h⟩
    · simp only [Bool.not_eq_true] at hb
      by_cases ha : isEmptyLike a = true
      · simp only [Interval.union, hb, Bool.false_eq_true, if_false, ha, if_true]
        exact ⟨hwb, fun j h => by simp at h⟩
      · simp only [Bool.not_eq_true] at ha
        by_cases hinf : (isInfinityLike a || isInfinityLike b) = true
        · simp only [Interval.union, hb, Bool.false_eq_true, if_false, ha,
            hinf, if_true]
          exact ⟨Or.inr rfl, fun j h => by simp at h⟩
        · by_cases hov : (a.overlap b || a.adhereTo b) = true
          · simp only [Interval.union, hb, Bool.false_eq_true, if_false, ha,
              hinf, hov, if_true]
            refine ⟨?_, fun j h => by simp at h⟩
            obtain ⟨x, hxl, hxr⟩ :=
              cross_not_gt_point a.lo a.hi (wf_gt_false a hwa ha)
            have h1 := memLower_min a.lo b.lo x hxl
            have h2 := memUpper_max a.hi b.hi x hxr
            cases hq : leftGtRight (Left.min a.lo b.lo) (Right.max a.hi b.hi) with
            | false => exact Or.inr hq
            | true => exact (cross_gt_no_point _ _ x hq h1 h2).elim
          · by_cases hgt : leftGtRight b.lo a.hi = true
            · simp only [Interval.union, hb, Bool.false_eq_true, if_false, ha,
                hinf, hov, hgt, if_true]
              exact ⟨hwa, fun j h => by simp at h; exact h ▸ hwb⟩
            · simp only [Interval.union, hb, Bool.false_eq_true, if_false, ha,
                hinf, hov, hgt, if_true]
              exact ⟨hwb, fun j h => by simp at h; exact h ▸ hwa⟩
  · intro i hw hne hni
    constructor
    · rcases hw with hw | hw
      · exact absurd hw hne
      · exact cross_not_gt_point i.lo i.hi hw
    · exact not_line_missing_point i hni

/-- Witness for C8: the union of the two concrete intervals [1,3] and [2,4]
has a well-formed first component. -/
theorem claim_c8_w :
    wf ((Interval.new (Closed 1) (Closed 3)).union
      (Interval.new (Closed 2) (Closed 4))).1 :=
  (claim_c8.2.2.1 (Interval.new (Closed 1) (Closed 3))
    (Interval.new (Closed 2) (Closed 4)) (by decide) (by decide)).1

end IntervalSpec
